import Mathlib

/-!
Verification of the REMICustom derivation/filtering layer and the JSON
dataset preprocessing of this repository, as a shallow embedding in Lean.

Token ids are modelled as natural numbers, token types as strings.  Python
functions that can raise (IndexError on an empty or too-short list, implicit
None return) are embedded as Option-valued functions, `none` standing for the
exceptional outcome.
-/

/-- A token sequence: the `ids` view of `TokSequence` (the only view the
verified code touches). -/
structure TokSequence where
  ids : List Nat
deriving DecidableEq, Repr

/-- The state of a `REMICustom` tokenizer that the verified functions read:
the id→type index, the type→ids inverse index, and the two per-view
exclusion lists. -/
structure REMICustom where
  token_id_type : Nat → String
  token_ids_of_type : String → List Nat
  remove_from_chord_seq : List String
  remove_from_instr_seq : List String

/-- Default of the `remove_token_types_from_chord_seq` parameter of
`REMICustom.__init__`. -/
def remicustom_default_remove_from_chord_seq : List String := ["Pitch", "Velocity"]

/-- Default of the `remove_token_types_from_instr_seq` parameter of
`REMICustom.__init__`. -/
def remicustom_default_remove_from_instr_seq : List String := ["Chord"]

/-- Tail worker for `remove_consecutive_duplicates`: `last` is the last kept
id (Python's `result[-1]`); an item is appended exactly when it differs from
it. -/
def rcdAux (last : Nat) : List Nat → List Nat
  | [] => []
  | x :: xs => if x ≠ last then x :: rcdAux x xs else rcdAux last xs

/-- Embedding of `remove_consecutive_duplicates` from `remi_custom.py`: start from the head
(empty input gives an empty result) and keep each item that differs from the
last kept one. -/
def remove_consecutive_duplicates (lst : List Nat) : List Nat :=
  match lst with
  | [] => []
  | x :: xs => x :: rcdAux x xs

/-- Embedding of `remove_token_types_from_seq` from `remi_custom.py`: keep the ids whose
type is not in `token_types_to_remove`, then collapse immediately-consecutive
duplicates. -/
def remove_token_types_from_seq (tokenizer : REMICustom) (sequence : List Nat)
    (token_types_to_remove : List String) : List Nat :=
  remove_consecutive_duplicates
    (sequence.filter (fun t => decide (tokenizer.token_id_type t ∉ token_types_to_remove)))

/-- Embedding of `REMICustom.remove_extra_tokens_from_chord_seq`. -/
def remove_extra_tokens_from_chord_seq (t : REMICustom) (seq : List Nat) : List Nat :=
  remove_token_types_from_seq t seq t.remove_from_chord_seq

/-- Embedding of `REMICustom.remove_extra_tokens_from_instr_seq`. -/
def remove_extra_tokens_from_instr_seq (t : REMICustom) (seq : List Nat) : List Nat :=
  remove_token_types_from_seq t seq t.remove_from_instr_seq

theorem rcdAux_eq_destutter (xs : List Nat) : ∀ last : Nat,
    last :: rcdAux last xs = List.destutter' (fun a b => a ≠ b) last xs := by
  induction xs with
  | nil => intro last; rfl
  | cons x xs ih =>
    intro last
    by_cases h : x = last
    · subst h
      rw [rcdAux, if_neg (by simp), List.destutter'_cons, if_neg (by simp), ih]
    · rw [rcdAux, if_pos h, List.destutter'_cons, if_pos (Ne.symm h), ← ih]

/-- The collapse step is exactly destuttering with respect to disequality. -/
theorem remove_consecutive_duplicates_eq_destutter (lst : List Nat) :
    remove_consecutive_duplicates lst = lst.destutter (fun a b => a ≠ b) := by
  cases lst with
  | nil => rfl
  | cons x xs =>
    rw [remove_consecutive_duplicates, List.destutter_cons', rcdAux_eq_destutter]

theorem mem_rcdAux (xs : List Nat) : ∀ (last a : Nat),
    (a ∈ last :: rcdAux last xs ↔ a ∈ last :: xs) := by
  induction xs with
  | nil => intro last a; rfl
  | cons x xs ih =>
    intro last a
    have hx := ih x a
    rw [List.mem_cons, List.mem_cons] at hx
    by_cases h : x = last
    · subst h
      rw [rcdAux, if_neg (by simp)]
      rw [List.mem_cons, List.mem_cons, List.mem_cons]
      tauto
    · rw [rcdAux, if_pos h]
      rw [List.mem_cons, List.mem_cons, List.mem_cons, List.mem_cons]
      tauto

/-- Collapsing consecutive duplicates does not change the set of ids present. -/
theorem mem_remove_consecutive_duplicates (lst : List Nat) (a : Nat) :
    a ∈ remove_consecutive_duplicates lst ↔ a ∈ lst := by
  cases lst with
  | nil => rfl
  | cons x xs => exact mem_rcdAux xs x a

theorem remove_consecutive_duplicates_sublist (lst : List Nat) :
    List.Sublist (remove_consecutive_duplicates lst) lst := by
  rw [remove_consecutive_duplicates_eq_destutter]
  exact List.destutter_sublist _ lst

theorem remove_consecutive_duplicates_chain (lst : List Nat) :
    (remove_consecutive_duplicates lst).Chain' (fun a b => a ≠ b) := by
  rw [remove_consecutive_duplicates_eq_destutter]
  exact List.destutter_is_chain' _ lst

theorem remove_consecutive_duplicates_idem (lst : List Nat) :
    remove_consecutive_duplicates (remove_consecutive_duplicates lst) =
      remove_consecutive_duplicates lst := by
  rw [remove_consecutive_duplicates_eq_destutter, remove_consecutive_duplicates_eq_destutter]
  exact List.destutter_idem lst _

/-- C1: for every base id sequence and exclusion set, the derived view is the
filtered subsequence (exactly the ids whose type is outside the exclusion set,
in original order) with immediately-consecutive duplicates collapsed, and it
has no two adjacent equal ids. -/
theorem remove_token_types_from_seq_spec (t : REMICustom) (seq : List Nat)
    (ex : List String) :
    remove_token_types_from_seq t seq ex =
        remove_consecutive_duplicates
          (seq.filter (fun tok => decide (t.token_id_type tok ∉ ex)))
      ∧ (∀ a, a ∈ remove_token_types_from_seq t seq ex ↔
          a ∈ seq ∧ t.token_id_type a ∉ ex)
      ∧ List.Sublist (remove_token_types_from_seq t seq ex)
          (seq.filter (fun tok => decide (t.token_id_type tok ∉ ex)))
      ∧ (remove_token_types_from_seq t seq ex).Chain' (fun a b => a ≠ b) := by
  refine ⟨rfl, ?_, ?_, ?_⟩
  · intro a
    rw [remove_token_types_from_seq, mem_remove_consecutive_duplicates, List.mem_filter]
    simp
  · exact remove_consecutive_duplicates_sublist _
  · exact remove_consecutive_duplicates_chain _

/-- C5: filtering is idempotent — re-filtering an already filtered view with
the same exclusion set returns it unchanged. -/
theorem remove_token_types_from_seq_idempotent (t : REMICustom) (seq : List Nat)
    (ex : List String) :
    remove_token_types_from_seq t (remove_token_types_from_seq t seq ex) ex =
      remove_token_types_from_seq t seq ex := by
  have hfilter :
      (remove_token_types_from_seq t seq ex).filter
          (fun tok => decide (t.token_id_type tok ∉ ex)) =
        remove_token_types_from_seq t seq ex := by
    apply List.filter_eq_self.mpr
    intro a ha
    rw [remove_token_types_from_seq, mem_remove_consecutive_duplicates,
      List.mem_filter] at ha
    exact ha.2
  rw [remove_token_types_from_seq, hfilter, remove_token_types_from_seq]
  exact remove_consecutive_duplicates_idem _

/-- C8: filtering and duplicate-collapsing on an empty sequence return an
empty sequence (total functions in this embedding: no exception is raised). -/
theorem filtering_empty_sequence_eq_nil :
    (∀ (t : REMICustom) (ex : List String), remove_token_types_from_seq t [] ex = [])
      ∧ remove_consecutive_duplicates [] = [] :=
  ⟨fun _ _ => rfl, rfl⟩

/-- The post-processing that `REMICustom._score_to_tokens` applies to the
list of token sequences returned by the base tokenization: it reads
`tok_sequence[0].ids` and `tok_sequence[1].ids` unconditionally, so a list
with fewer than two sequences hits an IndexError (modelled as `none`). -/
def score_to_tokens_post (t : REMICustom) (tok_sequence : List TokSequence) :
    Option (List TokSequence) :=
  match tok_sequence with
  | s0 :: s1 :: rest =>
      some (TokSequence.mk (remove_extra_tokens_from_instr_seq t s0.ids)
        :: TokSequence.mk (remove_extra_tokens_from_chord_seq t s1.ids) :: rest)
  | _ => none

/-- The value Python's `sum([token_ids_of_type(t) for t in token_types], [])`
computes in the body of `get_disabled_indices`. -/
def disabled_indices_value (t : REMICustom) (token_types : List String) : List Nat :=
  (token_types.map t.token_ids_of_type).foldl (fun acc l => acc ++ l) []

/-- Embedding of `REMICustom.get_disabled_indices`: the body evaluates the concatenation
but has no return statement, so the call returns Python's `None` (modelled as
`none`) whatever the arguments are. -/
def get_disabled_indices (t : REMICustom) (token_types : List String) :
    Option (List Nat) :=
  let _ := disabled_indices_value t token_types
  none

/-- Embedding of `REMICustom.get_disabled_instr_indices`. -/
def get_disabled_instr_indices (t : REMICustom) : Option (List Nat) :=
  get_disabled_indices t t.remove_from_instr_seq

/-- Embedding of `REMICustom.get_disabled_chord_indices`. -/
def get_disabled_chord_indices (t : REMICustom) : Option (List Nat) :=
  get_disabled_indices t t.remove_from_chord_seq

/-- Embedding of `REMICustom.func_to_get_labels`: returns `tseq[1].ids`; an IndexError on a
list shorter than two is modelled as `none`. -/
def func_to_get_labels (tseq : List TokSequence) : Option (List Nat) :=
  (tseq.get? 1).map TokSequence.ids

/-- Type assignment of the example of spec section 8 (Example A): ids 0..7
carry the types Bar, Position, Chord, Pitch, Velocity, Chord, Position,
Pitch. -/
def exTypeOf (i : Nat) : String :=
  if i = 0 then "Bar"
  else if i = 1 then "Position"
  else if i = 2 then "Chord"
  else if i = 3 then "Pitch"
  else if i = 4 then "Velocity"
  else if i = 5 then "Chord"
  else if i = 6 then "Position"
  else "Pitch"

/-- The precomputed type→ids inverse index for `exTypeOf` over ids 0..7. -/
def exIdsOfType (ty : String) : List Nat :=
  (List.range 8).filter (fun i => exTypeOf i == ty)

/-- An example `REMICustom` instance over the 8-id vocabulary of `exTypeOf`,
with the constructor's default exclusion lists. -/
def exTok : REMICustom :=
  { token_id_type := exTypeOf
    token_ids_of_type := exIdsOfType
    remove_from_chord_seq := remicustom_default_remove_from_chord_seq
    remove_from_instr_seq := remicustom_default_remove_from_instr_seq }

/-- C6: on the base type sequence [Bar, Position, Chord, Pitch, Velocity,
Chord, Position, Pitch] over eight pairwise-distinct ids, the default
chord-view exclusion (Pitch, Velocity) keeps the five ids typed
[Bar, Position, Chord, Chord, Position], and the default instrument-view
exclusion (Chord) keeps the six ids typed
[Bar, Position, Pitch, Velocity, Position, Pitch]. -/
theorem default_exclusion_views_example :
    remicustom_default_remove_from_chord_seq = ["Pitch", "Velocity"]
      ∧ remicustom_default_remove_from_instr_seq = ["Chord"]
      ∧ exTok.remove_from_chord_seq = remicustom_default_remove_from_chord_seq
      ∧ exTok.remove_from_instr_seq = remicustom_default_remove_from_instr_seq
      ∧ [0, 1, 2, 3, 4, 5, 6, 7].map exTok.token_id_type =
          ["Bar", "Position", "Chord", "Pitch", "Velocity", "Chord", "Position", "Pitch"]
      ∧ remove_token_types_from_seq exTok [0, 1, 2, 3, 4, 5, 6, 7]
          remicustom_default_remove_from_chord_seq = [0, 1, 2, 5, 6]
      ∧ [0, 1, 2, 5, 6].map exTok.token_id_type =
          ["Bar", "Position", "Chord", "Chord", "Position"]
      ∧ remove_token_types_from_seq exTok [0, 1, 2, 3, 4, 5, 6, 7]
          remicustom_default_remove_from_instr_seq = [0, 1, 3, 4, 6, 7]
      ∧ [0, 1, 3, 4, 6, 7].map exTok.token_id_type =
          ["Bar", "Position", "Pitch", "Velocity", "Position", "Pitch"] := by
  refine ⟨rfl, rfl, rfl, rfl, ?_, ?_, ?_, ?_, ?_⟩ <;> rfl

/-- C4: `get_disabled_indices` returns `None` (the concatenation it computes
is discarded for lack of a return statement); on the example vocabulary the
claimed return value would have been the nonempty id list [2, 5] of the
"Chord" type, and the instrument-view wrapper propagates the `None`. -/
theorem get_disabled_indices_returns_none :
    get_disabled_indices exTok ["Chord"] = none
      ∧ disabled_indices_value exTok ["Chord"] = [2, 5]
      ∧ get_disabled_instr_indices exTok = none := by
  refine ⟨rfl, ?_, rfl⟩
  rfl

/-- C3: on a single-stream input (a list holding one TokSequence), the
post-processing of `REMICustom._score_to_tokens` reads `tok_sequence[1]`
unconditionally and fails (IndexError, modelled as `none`) instead of
skipping the view-specific filtering through a checked branch. -/
theorem score_to_tokens_post_single_stream_fails :
    score_to_tokens_post exTok [TokSequence.mk [0, 1]] = none := rfl

/-- C9: on every list of at least two token sequences, `func_to_get_labels`
returns the second sequence's id list exactly as stored (the embedding is a
pure read: no sequence is modified). -/
theorem func_to_get_labels_returns_second_ids (tseqs : List TokSequence)
    (h : 2 ≤ tseqs.length) :
    func_to_get_labels tseqs = some (tseqs.get ⟨1, h⟩).ids := by
  rw [func_to_get_labels, List.get?_eq_get h]
  rfl

/-- Witness for C9 at a concrete two-element list. -/
theorem func_to_get_labels_returns_second_ids_witness :
    2 ≤ ([TokSequence.mk [9], TokSequence.mk [3, 4]] : List TokSequence).length
      ∧ func_to_get_labels [TokSequence.mk [9], TokSequence.mk [3, 4]] =
          some (([TokSequence.mk [9], TokSequence.mk [3, 4]] : List TokSequence).get
            ⟨1, by decide⟩).ids :=
  ⟨by decide, func_to_get_labels_returns_second_ids _ (by decide)⟩

/-- Single-view worker of the sub-vocabulary re-indexing: walk the base
vocabulary entries in order, assigning the next free integer (starting at
`i`) to every entry whose type is not in `excl`. -/
def subVocabAux (t : REMICustom) (excl : List String) :
    List (String × Nat) → Nat → List (String × Nat)
  | [], _ => []
  | (k, v) :: rest, i =>
    if t.token_id_type v ∉ excl then (k, i) :: subVocabAux t excl rest (i + 1)
    else subVocabAux t excl rest i

/-- Loop body of `REMICustom.separate_chord_vocab`: one pass over the base
vocabulary with the two counters `i` (instrument view) and `j` (chord view),
producing `instr_vocab` and `chord_vocab`. -/
def sepVocabAux (t : REMICustom) :
    List (String × Nat) → Nat → Nat → List (String × Nat) × List (String × Nat)
  | [], _, _ => ([], [])
  | (k, v) :: rest, i, j =>
    let keepI := t.token_id_type v ∉ t.remove_from_instr_seq
    let keepJ := t.token_id_type v ∉ t.remove_from_chord_seq
    let p := sepVocabAux t rest (if keepI then i + 1 else i) (if keepJ then j + 1 else j)
    ((if keepI then (k, i) :: p.1 else p.1), (if keepJ then (k, j) :: p.2 else p.2))

/-- Embedding of `REMICustom.separate_chord_vocab`, acting on the base vocabulary given as
its entries in base-id (insertion) order: returns the pair
(instr_vocab, chord_vocab), both counters starting at 0. -/
def separate_chord_vocab (t : REMICustom) (vocab : List (String × Nat)) :
    List (String × Nat) × List (String × Nat) :=
  sepVocabAux t vocab 0 0

/-- The entries of the base vocabulary kept by a view with exclusion list
`excl`. -/
def keptEntries (t : REMICustom) (excl : List String) (vocab : List (String × Nat)) :
    List (String × Nat) :=
  vocab.filter (fun kv => decide (t.token_id_type kv.2 ∉ excl))

theorem sepVocabAux_eq_pair (t : REMICustom) (vocab : List (String × Nat)) :
    ∀ i j, sepVocabAux t vocab i j =
      (subVocabAux t t.remove_from_instr_seq vocab i,
        subVocabAux t t.remove_from_chord_seq vocab j) := by
  induction vocab with
  | nil => intro i j; rfl
  | cons kv rest ih =>
    intro i j
    obtain ⟨k, v⟩ := kv
    rw [sepVocabAux, subVocabAux, subVocabAux]
    by_cases hI : t.token_id_type v ∉ t.remove_from_instr_seq <;>
      by_cases hJ : t.token_id_type v ∉ t.remove_from_chord_seq <;>
        simp [hI, hJ, ih]

theorem subVocabAux_map_fst (t : REMICustom) (excl : List String)
    (vocab : List (String × Nat)) : ∀ i,
    (subVocabAux t excl vocab i).map Prod.fst = (keptEntries t excl vocab).map Prod.fst := by
  induction vocab with
  | nil => intro i; rfl
  | cons kv rest ih =>
    intro i
    obtain ⟨k, v⟩ := kv
    rw [subVocabAux]
    by_cases h : t.token_id_type v ∉ excl <;> simp [keptEntries, h, ih, List.filter]

theorem subVocabAux_map_snd (t : REMICustom) (excl : List String)
    (vocab : List (String × Nat)) : ∀ i,
    (subVocabAux t excl vocab i).map Prod.snd =
      List.range' i (keptEntries t excl vocab).length := by
  induction vocab with
  | nil => intro i; rfl
  | cons kv rest ih =>
    intro i
    obtain ⟨k, v⟩ := kv
    rw [subVocabAux]
    by_cases h : t.token_id_type v ∉ excl
    · simp only [if_pos h, List.map_cons]
      have hk : keptEntries t excl ((k, v) :: rest) = (k, v) :: keptEntries t excl rest := by
        simp [keptEntries, List.filter, h]
      rw [hk, List.length_cons, List.range'_succ, ih (i + 1)]
    · simp only [if_neg h]
      have hk : keptEntries t excl ((k, v) :: rest) = keptEntries t excl rest := by
        simp [keptEntries, List.filter, h]
      rw [hk, ih i]

/-- C2: `separate_chord_vocab` computes the two views independently
(instrument view from its own exclusion list, chord view from its own), and
each resulting sub-vocabulary lists exactly the non-excluded base entries in
base order, with new ids that are exactly 0, 1, ..., k-1 (k the number of
kept entries) — a duplicate-free enumeration of that contiguous range. -/
theorem separate_chord_vocab_reindexes_contiguously (t : REMICustom)
    (vocab : List (String × Nat)) :
    (separate_chord_vocab t vocab).1 =
        subVocabAux t t.remove_from_instr_seq vocab 0
      ∧ (separate_chord_vocab t vocab).2 =
        subVocabAux t t.remove_from_chord_seq vocab 0
      ∧ ((separate_chord_vocab t vocab).1.map Prod.fst =
          (keptEntries t t.remove_from_instr_seq vocab).map Prod.fst)
      ∧ ((separate_chord_vocab t vocab).1.map Prod.snd =
          List.range (keptEntries t t.remove_from_instr_seq vocab).length)
      ∧ ((separate_chord_vocab t vocab).1.map Prod.snd).Nodup
      ∧ ((separate_chord_vocab t vocab).2.map Prod.fst =
          (keptEntries t t.remove_from_chord_seq vocab).map Prod.fst)
      ∧ ((separate_chord_vocab t vocab).2.map Prod.snd =
          List.range (keptEntries t t.remove_from_chord_seq vocab).length)
      ∧ ((separate_chord_vocab t vocab).2.map Prod.snd).Nodup := by
  have hpair := sepVocabAux_eq_pair t vocab 0 0
  have h1 : (separate_chord_vocab t vocab).1 =
      subVocabAux t t.remove_from_instr_seq vocab 0 := by
    rw [separate_chord_vocab, hpair]
  have h2 : (separate_chord_vocab t vocab).2 =
      subVocabAux t t.remove_from_chord_seq vocab 0 := by
    rw [separate_chord_vocab, hpair]
  have hsndI := subVocabAux_map_snd t t.remove_from_instr_seq vocab 0
  have hsndJ := subVocabAux_map_snd t t.remove_from_chord_seq vocab 0
  rw [← List.range_eq_range'] at hsndI hsndJ
  refine ⟨h1, h2, ?_, ?_, ?_, ?_, ?_, ?_⟩
  · rw [h1, subVocabAux_map_fst]
  · rw [h1, hsndI]
  · rw [h1, hsndI]; exact List.nodup_range _
  · rw [h2, subVocabAux_map_fst]
  · rw [h2, hsndJ]
  · rw [h2, hsndJ]; exact List.nodup_range _

/-- Dictionary lookup of a type's successor list in a token-types graph
(association list keyed by type name; empty when the key is absent). -/
def dictSuccs (g : List (String × List String)) (ty : String) : List String :=
  ((g.find? (fun p => p.1 == ty)).map Prod.snd).getD []

/-- Whether the graph has a "Chord" entry (Python raises KeyError otherwise). -/
def hasChordKey (g : List (String × List String)) : Bool :=
  g.any (fun p => p.1 == "Chord")

/-- Python's `set.update(["Duration"])` on a successor set: adds "Duration"
when absent. -/
def addDuration (s : List String) : List String :=
  if "Duration" ∈ s then s else s ++ ["Duration"]

/-- The per-entry rewrite performed on the graph returned by the base class:
only the "Chord" entry changes. -/
def amendEntry (p : String × List String) : String × List String :=
  if p.1 == "Chord" then (p.1, addDuration p.2) else p

/-- Embedding of `REMICustom._create_token_types_graph`: take the graph built by the base
class (a fresh value per call) and add "Duration" to the successors of
"Chord"; a graph without a "Chord" entry raises KeyError (`none`). -/
def create_token_types_graph (base : List (String × List String)) :
    Option (List (String × List String)) :=
  if hasChordKey base then some (base.map amendEntry) else none

/-- Modelled from the spec: `REMI._create_token_types_graph`, the base-family
default graph builder, is not under src/. Per spec section 4.2 the family
supplies a default graph over its canonical attribute emission order
(Bar→Position→Pitch→Velocity→Duration) with a Chord entry, and the builder
constructs it anew on each call, so the subclass amendment acts on an
unshared value. This concrete graph follows those words and serves as a
sample base graph. -/
def remi_default_graph : List (String × List String) :=
  [("Bar", ["Position"]),
   ("Position", ["Pitch", "Chord"]),
   ("Chord", ["Pitch"]),
   ("Pitch", ["Velocity"]),
   ("Velocity", ["Duration"]),
   ("Duration", ["Pitch", "Position", "Bar"])]

theorem mem_addDuration (s : List String) (x : String) :
    x ∈ addDuration s ↔ x ∈ s ∨ x = "Duration" := by
  by_cases hD : "Duration" ∈ s
  · rw [addDuration, if_pos hD]
    constructor
    · exact fun hx => Or.inl hx
    · rintro (hx | hx)
      · exact hx
      · rw [hx]; exact hD
  · rw [addDuration, if_neg hD]
    simp

theorem dictSuccs_amend_chord (base : List (String × List String))
    (h : hasChordKey base = true) :
    dictSuccs (base.map amendEntry) "Chord" = addDuration (dictSuccs base "Chord") := by
  induction base with
  | nil => simp [hasChordKey] at h
  | cons p rest ih =>
    by_cases hp : p.1 == "Chord"
    · rw [List.map_cons]
      rw [dictSuccs, List.find?, dictSuccs, List.find?]
      have hkey : amendEntry p = (p.1, addDuration p.2) := by
        rw [amendEntry, if_pos hp]
      rw [hkey]
      simp only [hp]
      rfl
    · have hrest : hasChordKey rest = true := by
        rw [hasChordKey, List.any_cons] at h
        simp only [hp, Bool.false_or] at h
        exact h
      rw [List.map_cons]
      rw [dictSuccs, List.find?, dictSuccs, List.find?]
      have hkey : amendEntry p = p := by rw [amendEntry, if_neg (by simp [hp])]
      rw [hkey]
      simp only [hp]
      exact ih hrest

theorem dictSuccs_amend_other (base : List (String × List String)) (ty : String)
    (hty : ty ≠ "Chord") :
    dictSuccs (base.map amendEntry) ty = dictSuccs base ty := by
  induction base with
  | nil => rfl
  | cons p rest ih =>
    rw [List.map_cons, dictSuccs, List.find?, dictSuccs, List.find?]
    by_cases hp : p.1 == "Chord"
    · have hkey : amendEntry p = (p.1, addDuration p.2) := by
        rw [amendEntry, if_pos hp]
      have hp' : p.1 = "Chord" := by simpa using hp
      have hne : (p.1 == ty) = false := by
        rw [hp']
        exact beq_eq_false_iff_ne.mpr (Ne.symm hty)
      rw [hkey]
      simp only [hne]
      exact ih
    · have hkey : amendEntry p = p := by rw [amendEntry, if_neg (by simp [hp])]
      rw [hkey]
      by_cases hq : p.1 == ty
      · simp only [hq]
      · simp only [Bool.not_eq_true] at hq
        simp only [hq]
        exact ih

theorem amend_map_fst (base : List (String × List String)) :
    (base.map amendEntry).map Prod.fst = base.map Prod.fst := by
  rw [List.map_map]
  apply List.map_congr_left
  intro p _
  show (amendEntry p).1 = p.1
  rw [amendEntry]
  by_cases hp : p.1 == "Chord" <;> simp [hp]

/-- C7: when the base graph has a "Chord" entry, the amended graph built by
`REMICustom._create_token_types_graph` equals the base graph except that
"Duration" is added to the successors of "Chord": the Chord successor set
becomes exactly the old one plus "Duration", every other type keeps its
successor list verbatim, and the node set is unchanged.  The base graph value
itself is untouched (the amendment is applied to the fresh value the base
builder returns, never to a shared graph). -/
theorem create_token_types_graph_adds_duration_to_chord
    (base : List (String × List String)) (h : hasChordKey base = true) :
    ∃ g, create_token_types_graph base = some g
      ∧ (∀ s, s ∈ dictSuccs g "Chord" ↔ s ∈ dictSuccs base "Chord" ∨ s = "Duration")
      ∧ (∀ ty, ty ≠ "Chord" → dictSuccs g ty = dictSuccs base ty)
      ∧ g.map Prod.fst = base.map Prod.fst := by
  refine ⟨base.map amendEntry, ?_, ?_, ?_, amend_map_fst base⟩
  · rw [create_token_types_graph, if_pos h]
  · intro s
    rw [dictSuccs_amend_chord base h, mem_addDuration]
  · intro ty hty
    exact dictSuccs_amend_other base ty hty

/-- Witness for C7 at the sample base graph modelled from the spec. -/
theorem create_token_types_graph_adds_duration_to_chord_witness :
    hasChordKey remi_default_graph = true
      ∧ ∃ g, create_token_types_graph remi_default_graph = some g
        ∧ (∀ s, s ∈ dictSuccs g "Chord" ↔
            s ∈ dictSuccs remi_default_graph "Chord" ∨ s = "Duration")
        ∧ (∀ ty, ty ≠ "Chord" → dictSuccs g ty = dictSuccs remi_default_graph ty)
        ∧ g.map Prod.fst = remi_default_graph.map Prod.fst :=
  ⟨by decide, create_token_types_graph_adds_duration_to_chord remi_default_graph (by decide)⟩

/-- Python's `sum([1 for t in [bos_token_id, eos_token_id] if t is not None])`:
how many of the two special tokens are configured. -/
def bosEosCount (bos eos : Option Nat) : Nat :=
  (if bos.isSome then 1 else 0) + (if eos.isSome then 1 else 0)

/-- Python truthiness of an optional token id: `None` and `0` are falsy. -/
def pyTruthy (x : Option Nat) : Bool :=
  match x with
  | none => false
  | some n => n != 0

/-- Python's `l[:m]` for an arbitrary (possibly negative) integer bound `m`:
a negative bound counts from the end, clamped at zero. -/
def pySliceTo (l : List Nat) (m : Int) : List Nat :=
  if 0 ≤ m then l.take m.toNat else l.take ((l.length : Int) + m).toNat

/-- The sequence-length reduction step of `_preprocess_token_ids`: slice to
`m` elements when the list is longer than `m`. -/
def reduce_sequence (token_ids : List Nat) (m : Int) : List Nat :=
  if (token_ids.length : Int) > m then pySliceTo token_ids m else token_ids

/-- The BOS block of `_preprocess_token_ids`: when the BOS id is truthy,
Python reads `token_ids[0]` (IndexError on an empty list, modelled `none`)
and inserts the BOS id at the front. -/
def pyInsertBos (ids : List Nat) (bos : Option Nat) : Option (List Nat) :=
  if pyTruthy bos then
    match ids with
    | [] => none
    | x :: xs => some (bos.getD 0 :: x :: xs)
  else some ids

/-- The EOS block of `_preprocess_token_ids`: when the (possibly cleared) EOS
id is truthy, Python reads `token_ids[0]` and appends the EOS id. -/
def pyAppendEos : Option (List Nat) → Option Nat → Option (List Nat)
  | none, _ => none
  | some l, eos =>
    if pyTruthy eos then
      match l with
      | [] => none
      | y :: ys => some ((y :: ys) ++ [eos.getD 0])
    else some l

/-- Embedding of `_DatasetABC._preprocess_token_ids` on a flat id list: subtract the
BOS/EOS allowance from `max_seq_len`, truncate when longer, clear the EOS id
on truncation unless `enforce_eos`, then run the BOS and EOS blocks. -/
def preprocess_token_ids (token_ids : List Nat) (max_seq_len : Int)
    (bos_token_id eos_token_id : Option Nat) (enforce_eos : Bool) :
    Option (List Nat) :=
  pyAppendEos
    (pyInsertBos
      (reduce_sequence token_ids (max_seq_len - (bosEosCount bos_token_id eos_token_id : Int)))
      bos_token_id)
    (if (token_ids.length : Int) > max_seq_len - (bosEosCount bos_token_id eos_token_id : Int)
      then (if enforce_eos then eos_token_id else none) else eos_token_id)

/-- Embedding of `DatasetJSON.__init__`: `_effective_max_seq_len` already subtracts the
BOS/EOS allowance from `max_seq_len` once. -/
def DatasetJSON_effective_max_seq_len (max_seq_len : Int) (bos eos : Option Nat) : Int :=
  max_seq_len - (bosEosCount bos eos : Int)

/-- Embedding of `DatasetJSON.__getitem__` applied to the id list loaded from the file:
it calls `_preprocess_token_ids` with the already-reduced
`_effective_max_seq_len` (so the allowance is subtracted a second time
inside) and the default `enforce_eos_token_if_seq_len_exceed_lim=False`. -/
def DatasetJSON_getitem (file_ids : List Nat) (max_seq_len : Int)
    (bos eos : Option Nat) : Option (List Nat) :=
  preprocess_token_ids file_ids (DatasetJSON_effective_max_seq_len max_seq_len bos eos)
    bos eos false

theorem reduce_sequence_length (ids : List Nat) (m : Int) (hm : 0 ≤ m) :
    ((reduce_sequence ids m).length : Int) ≤ m := by
  rw [reduce_sequence]
  by_cases hlen : (ids.length : Int) > m
  · rw [if_pos hlen, pySliceTo, if_pos hm, List.length_take]
    have h2 : (m.toNat : Int) = m := Int.toNat_of_nonneg hm
    omega
  · rw [if_neg hlen]
    omega

theorem pyTruthy_isSome (x : Option Nat) (h : pyTruthy x = true) : x.isSome = true := by
  cases x with
  | none => simp [pyTruthy] at h
  | some n => rfl

theorem pyInsertBos_length (ids : List Nat) (bos : Option Nat) (out : List Nat)
    (h : pyInsertBos ids bos = some out) :
    out.length ≤ ids.length + (if bos.isSome then 1 else 0) := by
  rw [pyInsertBos.eq_def] at h
  by_cases hb : pyTruthy bos = true
  · rw [if_pos hb] at h
    rw [pyTruthy_isSome bos hb]
    cases ids with
    | nil => exact absurd h (by simp)
    | cons x xs =>
      have hout : bos.getD 0 :: x :: xs = out := by
        simpa using h
      rw [← hout]
      simp
  · rw [if_neg hb] at h
    have hout : ids = out := by simpa using h
    rw [← hout]
    omega

theorem pyAppendEos_length (ids : Option (List Nat)) (eos : Option Nat) (out : List Nat)
    (h : pyAppendEos ids eos = some out) :
    ∃ l, ids = some l ∧ out.length ≤ l.length + (if eos.isSome then 1 else 0) := by
  cases ids with
  | none => exact absurd h (by simp [pyAppendEos])
  | some l =>
    refine ⟨l, rfl, ?_⟩
    simp only [pyAppendEos] at h
    by_cases he : pyTruthy eos = true
    · rw [if_pos he] at h
      rw [pyTruthy_isSome eos he]
      cases l with
      | nil => exact absurd h (by simp)
      | cons y ys =>
        have hout : (y :: ys) ++ [eos.getD 0] = out := by simpa using h
        rw [← hout]
        simp
    · rw [if_neg he] at h
      have hout : l = out := by simpa using h
      rw [← hout]
      omega

theorem preprocess_token_ids_len_bound (ids : List Nat) (M : Int)
    (bos eos : Option Nat) (out : List Nat)
    (hM : (bosEosCount bos eos : Int) ≤ M)
    (h : preprocess_token_ids ids M bos eos false = some out) :
    ((reduce_sequence ids (M - (bosEosCount bos eos : Int))).length : Int) ≤
        M - (bosEosCount bos eos : Int)
      ∧ (out.length : Int) ≤ M := by
  have hm : (0 : Int) ≤ M - (bosEosCount bos eos : Int) := by omega
  have hrlen := reduce_sequence_length ids (M - (bosEosCount bos eos : Int)) hm
  refine ⟨hrlen, ?_⟩
  rw [preprocess_token_ids] at h
  obtain ⟨l, hl, hlen2⟩ := pyAppendEos_length _ _ out h
  have hlen1 := pyInsertBos_length _ bos l hl
  have heos :
      (if (if (ids.length : Int) > M - (bosEosCount bos eos : Int)
            then (if false then eos else none) else eos).isSome then 1 else 0) ≤
        (if eos.isSome then 1 else 0) := by
    by_cases htr : (ids.length : Int) > M - (bosEosCount bos eos : Int) <;>
      simp [htr]
  have hd : bosEosCount bos eos =
      (if bos.isSome then 1 else 0) + (if eos.isSome then 1 else 0) := rfl
  omega

/-- C10 counterexample: with max_seq_len 3, BOS id 1 and EOS id 2 (so k = 2
special tokens configured), loading ids [4,5,6,7,8] gives an inner limit of
(3-2)-2 = -1; Python's negative slice keeps four elements (more than the
claimed L-2k), the EOS id is cleared, the BOS id is inserted, and the
returned sequence has length 5, exceeding the claimed bound L - k = 1. -/
theorem DatasetJSON_getitem_exceeds_claimed_bound :
    DatasetJSON_getitem [4, 5, 6, 7, 8] 3 (some 1) (some 2) = some [1, 4, 5, 6, 7]
      ∧ ¬ ((([1, 4, 5, 6, 7] : List Nat).length : Int) ≤
          3 - (bosEosCount (some 1) (some 2) : Int)) := by
  exact ⟨rfl, by decide⟩

/-- C10 (amended): provided max_seq_len L is at least twice the BOS/EOS
allowance k, `DatasetJSON.__getitem__` truncates the loaded ids to at most
L - 2k elements before adding the BOS/EOS tokens (the allowance is subtracted
once into `_effective_max_seq_len` and again inside `_preprocess_token_ids`),
and whenever it returns, the resulting id sequence has length at most
L - k. -/
theorem DatasetJSON_getitem_len_le (file_ids : List Nat) (L : Int)
    (bos eos : Option Nat) (out : List Nat)
    (hL : 2 * (bosEosCount bos eos : Int) ≤ L)
    (hout : DatasetJSON_getitem file_ids L bos eos = some out) :
    ((reduce_sequence file_ids (L - 2 * (bosEosCount bos eos : Int))).length : Int) ≤
        L - 2 * (bosEosCount bos eos : Int)
      ∧ (out.length : Int) ≤ L - (bosEosCount bos eos : Int) := by
  rw [DatasetJSON_getitem, DatasetJSON_effective_max_seq_len] at hout
  have hM : (bosEosCount bos eos : Int) ≤ L - (bosEosCount bos eos : Int) := by omega
  have hb := preprocess_token_ids_len_bound file_ids (L - (bosEosCount bos eos : Int))
    bos eos out hM hout
  have harith : L - (bosEosCount bos eos : Int) - (bosEosCount bos eos : Int) =
      L - 2 * (bosEosCount bos eos : Int) := by ring
  rw [harith] at hb
  exact hb

/-- Witness for the amended C10 at a concrete input. -/
theorem DatasetJSON_getitem_len_le_witness :
    2 * (bosEosCount (some 1) (some 2) : Int) ≤ 10
      ∧ DatasetJSON_getitem [5, 6, 7] 10 (some 1) (some 2) = some [1, 5, 6, 7, 2]
      ∧ (((reduce_sequence [5, 6, 7]
            (10 - 2 * (bosEosCount (some 1) (some 2) : Int))).length : Int) ≤
          10 - 2 * (bosEosCount (some 1) (some 2) : Int)
        ∧ ((([1, 5, 6, 7, 2] : List Nat).length : Int) ≤
            10 - (bosEosCount (some 1) (some 2) : Int))) :=
  ⟨by decide, by decide,
    DatasetJSON_getitem_len_le [5, 6, 7] 10 (some 1) (some 2) [1, 5, 6, 7, 2]
      (by decide) (by decide)⟩
